import Mathlib

/-!
Verification of the `tokens.py` singleton-token registry.

Shallow embedding of `src/tokens.py` (version 1.2.2): the `Token` class, its
nested `TokenValue` value bundle, the class-attribute based registry state
(`_register`, `_index`, `_numindex`), construction (`Token.__init__`),
`makeroot`, `byval`, `bynum`, `tokens`, equality, hashing and the
`list`/`tuple` accessors.

Modelling conventions:
* A Python class is identified by its method-resolution-order chain of class
  ids, `Cls := List Nat`; the head is the class itself and the last element is
  the universal base class `Token` (id 0).  `issubclass(c, d)` holds iff `d`
  occurs in `c`'s chain.
* A Python `OrderedDict` is an association list `List (K × V)`; assignment to
  a fresh key appends, assignment to an existing key updates in place.
* Class attributes (`_register`, `_index`, `_numindex`) live in the
  `RegState` record: each field maps the classes that OWN such an attribute to
  the attribute's dict.  Attribute access walks the MRO chain and picks the
  first owner, exactly like Python attribute lookup.
* Python object identity of a `TokenValue` instance is modelled by the
  `valId : Nat` field: each `TokenValue` allocated by the constructor receives
  a fresh id.  CPython's default `object.__hash__` is an injective function of
  the object identity (a rotation of the address), modelled by `objIdHash`.
* Exceptions are modelled by the `PyErr` type; a constructor/operation
  returns `Except PyErr _` together with the post state (Python state
  mutations performed before a `raise` persist, so the state is returned in
  the error case as well).
* `floatval` and `dictval` payloads are stored and returned but never
  inspected by the source, so they are carried with representative types.
-/

set_option autoImplicit false

namespace Tokens

/-- A Python class tag: the MRO chain of class ids, head = the class itself,
last = the base `Token` class (id 0). -/
abbrev Cls := List Nat

/-- The base `Token` class itself. -/
def tokenBase : Cls := [0]

/-- The possible values of the `listval` slot, as far as the source inspects
them: absent (`None`), a tuple payload, or a callable (calling it with no
arguments yields the stored result). -/
inductive ListVal where
  | noneV : ListVal
  | tupleV : List Int → ListVal
  | callableV : ListVal → ListVal
deriving DecidableEq

/-- `Token.TokenValue`: the value bundle holding the five optional payload
slots.  `valId` models the Python object identity of this `TokenValue`
instance (`TokenValue` defines neither `__eq__` nor `__hash__`, so identity is
semantically relevant: it is what the default `object.__hash__` consumes). -/
structure TokenValue where
  strval : Option String
  intval : Option Int
  floatval : Option Int
  dictval : Option (List (String × Int))
  listval : ListVal
  valId : Nat
deriving DecidableEq

/-- A `Token` instance: its concrete class (`s.__class__`) and its `_val`
bundle. -/
structure Token where
  cls : Cls
  val : TokenValue
deriving DecidableEq

/-- Python exceptions raised by the source, tagged by raise site. -/
inductive PyErr where
  /-- `RuntimeError("token must have a string value", ...)` -/
  | missingStrVal : PyErr
  /-- `RuntimeError("Token must be globally unique in this micro segment", ...)`
  (duplicate in the per-class local register). -/
  | duplicateLocal : PyErr
  /-- `RuntimeError("Token must be globally unique in this segment", ...)`
  (duplicate in the root's global string index `_index`). -/
  | duplicateGlobalStr : PyErr
  /-- `RuntimeError("Token must be globally unique in this segment", ...)`
  (duplicate in the root's global int index `_numindex`). -/
  | duplicateGlobalInt : PyErr
  /-- `KeyError` raised by `byval` / `bynum` on a missing key. -/
  | keyNotFound : PyErr
  /-- `AttributeError`: the class has no `_index` / `_numindex` attribute
  anywhere on its MRO chain (the spec's `ConfigurationError`). -/
  | configurationError : PyErr
  /-- `TypeError`: attempt to call a non-callable object. -/
  | typeErr : PyErr
deriving DecidableEq

/-- Ordered-dict lookup on an association list (first entry wins, as keys are
unique in an `OrderedDict`). -/
def odFind {K V : Type} [BEq K] (d : List (K × V)) (k : K) : Option V :=
  match d.find? (fun p => p.1 == k) with
  | some p => some p.2
  | none => none

/-- Ordered-dict key-membership test (`k in d`). -/
def odMem {K V : Type} [BEq K] (d : List (K × V)) (k : K) : Bool :=
  (d.find? (fun p => p.1 == k)).isSome

/-- Ordered-dict assignment `d[k] = v`: update in place if the key exists,
append otherwise. -/
def setAssoc {K V : Type} [BEq K] (d : List (K × V)) (k : K) (v : V) :
    List (K × V) :=
  if odMem d k then d.map (fun p => if p.1 == k then (k, v) else p)
  else d ++ [(k, v)]

/-- The MRO chain of a class, as a list of classes: the class itself, then
each ancestor up to the base. -/
def mroChain : List Nat → List Cls
  | [] => []
  | a :: r => (a :: r) :: mroChain r

/-- Python attribute lookup for a class attribute: walk the MRO chain of `c`
and return the first class that owns the attribute (`owners` is the list of
classes owning it). -/
def findAttrOwner (owners : List Cls) (c : Cls) : Option Cls :=
  (mroChain c).find? (fun d => owners.contains d)

/-- `issubclass(sub, sup)` for single inheritance: `sup` occurs on the MRO
chain of `sub`. -/
def issubclassB (sub sup : Cls) : Bool :=
  (mroChain sub).contains sup

/-- The process-wide registry state: which classes own a `_register`, an
`_index`, a `_numindex` attribute, and the contents of those dicts.
* `registers`: owner class ↦ its `_register` dict (class ↦ per-class ordered
  register of string value ↦ token).
* `indexes`: owner class ↦ its `_index` dict (global string index).
* `numindexes`: owner class ↦ its `_numindex` dict (global int index, keyed
  by the token's `int` value, which may be absent — `None` is a key). -/
structure RegState where
  registers : List (Cls × List (Cls × List (String × Token)))
  indexes : List (Cls × List (String × Token))
  numindexes : List (Cls × List (Option Int × Token))
deriving DecidableEq

/-- Initial state: only the base `Token` class owns a `_register`
(`_register = OrderedDict()` at class-body level); no global indexes. -/
def RegState.start : RegState :=
  { registers := [(tokenBase, [])], indexes := [], numindexes := [] }

/-- Classes owning a `_register` attribute. -/
def regOwners (st : RegState) : List Cls := st.registers.map (fun p => p.1)

/-- Classes owning an `_index` attribute. -/
def strOwners (st : RegState) : List Cls := st.indexes.map (fun p => p.1)

/-- Classes owning a `_numindex` attribute. -/
def numOwners (st : RegState) : List Cls := st.numindexes.map (fun p => p.1)

/-- The `_register` dict owned by class `o`. -/
def registerDictAt (st : RegState) (o : Cls) :
    List (Cls × List (String × Token)) :=
  (odFind st.registers o).getD []

/-- The `_index` dict owned by class `o`. -/
def strIndexAt (st : RegState) (o : Cls) : List (String × Token) :=
  (odFind st.indexes o).getD []

/-- The `_numindex` dict owned by class `o`. -/
def numIndexAt (st : RegState) (o : Cls) : List (Option Int × Token) :=
  (odFind st.numindexes o).getD []

/-- The local register of class `c`: the entry for `c` in the `_register`
dict reached by attribute lookup from `c` (empty if absent). -/
def localRegisterAt (st : RegState) (c : Cls) : List (String × Token) :=
  match findAttrOwner (regOwners st) c with
  | some o => (odFind (registerDictAt st o) c).getD []
  | none => []

/-- The keyword arguments of `Token.__init__` (all default to `None`;
`listval` defaults to the absent value). -/
structure InitArgs where
  strval : Option String
  intval : Option Int
  floatval : Option Int
  dictval : Option (List (String × Int))
  listval : ListVal
  val : Option TokenValue
deriving DecidableEq

/-- Lines 126-129 of the source: `s._val = val if val is not None else
TokenValue(strval, intval, floatval, dictval, listval)`.  When a fresh
`TokenValue` is allocated it receives the fresh object id `fid`. -/
def resolveVal (a : InitArgs) (fid : Nat) : TokenValue :=
  match a.val with
  | none => ⟨a.strval, a.intval, a.floatval, a.dictval, a.listval, fid⟩
  | some tv => tv

/-- Lines 137-144: resolve `s._register` by attribute lookup, create the
per-class entry on first use, raise on a duplicate string value in the local
register, else insert `register[s.str] = s`.  The error case returns the
mutated state (the lazily created empty entry persists across the raise). -/
def localStep (st : RegState) (c : Cls) (sv : String) (tok : Token) :
    Option PyErr × RegState :=
  match findAttrOwner (regOwners st) c with
  | none => (some .configurationError, st)
  | some o =>
    let d0 := registerDictAt st o
    let d1 := if odMem d0 c then d0 else d0 ++ [(c, [])]
    let reg := (odFind d1 c).getD []
    if odMem reg sv then
      (some .duplicateLocal, { st with registers := setAssoc st.registers o d1 })
    else
      (none,
        { st with
          registers := setAssoc st.registers o (setAssoc d1 c (reg ++ [(sv, tok)])) })

/-- Lines 147-153: `try: index = s._index; ... except AttributeError: pass`.
If some class on the MRO owns `_index`, a duplicate string value there raises,
otherwise `index[s.str] = s`; if no class owns `_index` nothing happens. -/
def strIndexStep (st : RegState) (c : Cls) (sv : String) (tok : Token) :
    Option PyErr × RegState :=
  match findAttrOwner (strOwners st) c with
  | none => (none, st)
  | some o =>
    let idx := strIndexAt st o
    if odMem idx sv then (some .duplicateGlobalStr, st)
    else (none, { st with indexes := setAssoc st.indexes o (idx ++ [(sv, tok)]) })

/-- Lines 155-161: same for `_numindex`, keyed by `s.int` — note the source
uses `s.int` as the key unconditionally, so an absent int value (`None`) is
itself used as an index key. -/
def numIndexStep (st : RegState) (c : Cls) (iv : Option Int) (tok : Token) :
    Option PyErr × RegState :=
  match findAttrOwner (numOwners st) c with
  | none => (none, st)
  | some o =>
    let idx := numIndexAt st o
    if odMem idx iv then (some .duplicateGlobalInt, st)
    else
      (none, { st with numindexes := setAssoc st.numindexes o (idx ++ [(iv, tok)]) })

/-- `Token.__init__` (lines 125-161): resolve the value bundle, require a
string value, then run the local-register step, the global string index step
and the global int index step in order.  `fid` is the fresh object id handed
to a newly allocated `TokenValue`.  Returns the constructed token or the
raised exception, together with the post state. -/
def tokenInit (st : RegState) (c : Cls) (a : InitArgs) (fid : Nat) :
    Except PyErr Token × RegState :=
  let v := resolveVal a fid
  match v.strval with
  | none => (.error .missingStrVal, st)
  | some sv =>
    let tok : Token := ⟨c, v⟩
    match localStep st c sv tok with
    | (some e, st1) => (.error e, st1)
    | (none, st1) =>
      match strIndexStep st1 c sv tok with
      | (some e, st2) => (.error e, st2)
      | (none, st2) =>
        match numIndexStep st2 c v.intval tok with
        | (some e, st3) => (.error e, st3)
        | (none, st3) => (.ok tok, st3)

/-- `Token.makeroot(globalIndex=True, globalNumIndex=False)` (lines 163-178):
give `c` its own fresh `_register`, and, per flag, its own fresh `_index` and
`_numindex`.  A disabled flag assigns nothing (so an inherited index of that
kind keeps being found by attribute lookup). -/
def makeroot (st : RegState) (c : Cls) (globalIdx globalNumIdx : Bool) :
    RegState :=
  { registers := setAssoc st.registers c []
    indexes := if globalIdx then setAssoc st.indexes c [] else st.indexes
    numindexes := if globalNumIdx then setAssoc st.numindexes c [] else st.numindexes }

/-- `Token.byval(tokenvalue, noneIfMissing=False)` (lines 180-203): read
`cls._index` (an `AttributeError` if no class on the MRO owns one), then look
the key up, returning `None` or raising `KeyError` when missing. -/
def byval (st : RegState) (c : Cls) (key : String) (noneIfMissing : Bool) :
    Except PyErr (Option Token) :=
  match findAttrOwner (strOwners st) c with
  | none => .error .configurationError
  | some o =>
    match odFind (strIndexAt st o) key with
    | some t => .ok (some t)
    | none => if noneIfMissing then .ok none else .error .keyNotFound

/-- `Token.bynum(numvalue, noneIfMissing=False)` (lines 205-228): same
against `cls._numindex`. -/
def bynum (st : RegState) (c : Cls) (key : Option Int) (noneIfMissing : Bool) :
    Except PyErr (Option Token) :=
  match findAttrOwner (numOwners st) c with
  | none => .error .configurationError
  | some o =>
    match odFind (numIndexAt st o) key with
    | some t => .ok (some t)
    | none => if noneIfMissing then .ok none else .error .keyNotFound

/-- Flattening of a `_register` dict as done by `Token.tokens` (lines
275-289): keep the classes that are `cls` or a subclass of it, in dict order,
and concatenate their token lists in dict order. -/
def tokensOfDict (g : List (Cls × List (String × Token))) (c : Cls) :
    List Token :=
  (g.filter (fun p => issubclassB p.1 c || p.1 == c)).flatMap
    (fun p => p.2.map (fun q => q.2))

/-- `Token.tokens(strOnly=False)` (lines 275-289): all tokens of `cls` and
its registered subclasses, read from the `_register` reached by attribute
lookup (an `AttributeError` is impossible in practice since the base class
owns a register, but is modelled for totality). -/
def tokensOf (st : RegState) (c : Cls) : Except PyErr (List Token) :=
  match findAttrOwner (regOwners st) c with
  | none => .error .configurationError
  | some o => .ok (tokensOfDict (registerDictAt st o) c)

/-- The `Token.str` property: `s._val.strval`. -/
def Token.str (t : Token) : Option String := t.val.strval

/-- The `Token.int` property: `s._val.intval`. -/
def Token.int (t : Token) : Option Int := t.val.intval

/-- The `Token.list` property: `s._val.listval`. -/
def Token.list (t : Token) : ListVal := t.val.listval

/-- `Token.__eq__` (lines 342-343): same concrete class, same string value,
same int value (absent values compare equal, as `None == None` in Python). -/
def tokenEq (a b : Token) : Bool :=
  a.cls == b.cls && a.str == b.str && a.int == b.int

/-- CPython's default `object.__hash__`: an injective rotation of the
object's address, i.e. an injective function of the object identity.
Modelled as the identity map on object ids. -/
def objIdHash (objId : Nat) : Nat := objId

/-- `Token.__hash__` (lines 348-349): `hash(s._val)`.  `TokenValue` defines
no `__hash__`, so this is the default identity-based object hash of the
`_val` instance. -/
def tokenHash (t : Token) : Nat := objIdHash t.val.valId

/-- Whether a `listval` slot holds a callable. -/
def isCallable : ListVal → Bool
  | .callableV _ => true
  | _ => false

/-- A Python call expression `x()` on a `listval` slot: calling a
non-callable raises `TypeError`. -/
def callAsFunction : ListVal → Except PyErr ListVal
  | .callableV r => .ok r
  | _ => .error .typeErr

/-- The `Token.tuple` property (lines 326-329): `return s.list()` — it reads
the `list` property and then CALLS the resulting value. -/
def Token.tuple (t : Token) : Except PyErr ListVal :=
  callAsFunction (Token.list t)

/-- A construction event for enumeration analysis: construct a token of the
given class with the given name and optional int value (other payload slots
empty, no explicit bundle). -/
structure Ev where
  cls : Cls
  name : String
  ival : Option Int
deriving DecidableEq

/-- The constructor arguments of an event. -/
def argsOf (e : Ev) : InitArgs :=
  ⟨some e.name, e.ival, none, none, .noneV, none⟩

/-- The name of a registered token (`s.str`; always present for tokens that
passed construction). -/
def tokName (t : Token) : String := t.val.strval.getD ""

/-- Run a sequence of construction events, threading the registry state and
fresh object ids, and collect the successfully constructed tokens in order
(a failing construction contributes no token but keeps its state mutations,
as the Python exception propagates after the mutation). -/
def runEvents : RegState → List Ev → Nat → List Token × RegState
  | st, [], _ => ([], st)
  | st, e :: rest, fid =>
    match tokenInit st e.cls (argsOf e) fid with
    | (.ok t, st1) =>
      let pr := runEvents st1 rest (fid + 1)
      (t :: pr.1, pr.2)
    | (.error _, st1) => runEvents st1 rest (fid + 1)

/-- The register update a successful construction performs on the owning
root's `_register` dict: create the class entry on first use, then append
the token under its name (mirrors lines 137-144). -/
def insertGrouped (g : List (Cls × List (String × Token))) (t : Token) :
    List (Cls × List (String × Token)) :=
  let d1 := if odMem g t.cls then g else g ++ [(t.cls, [])]
  setAssoc d1 t.cls ((odFind d1 t.cls).getD [] ++ [(tokName t, t)])

/-- First occurrences of a list, in order (the order in which each element
first appears). -/
def firstOcc (xs : List Cls) : List Cls :=
  xs.foldl (fun acc x => if acc.contains x then acc else acc ++ [x]) []

/-- Spec-side enumeration order, following the spec's words (§4.5): all
tokens across the class and its descendants, concatenated in registration
order grouped by class — the classes in the order each class first received
a token, and within a class the tokens in their insertion order. -/
def specTokensOrder (toks : List Token) (c : Cls) : List Token :=
  ((firstOcc (toks.map (fun t => t.cls))).filter
      (fun d => issubclassB d c || d == c)).flatMap
    (fun d => toks.filter (fun t => t.cls == d))

/-! ### Ordered-dict lemmas -/

section OdLemmas

variable {K V : Type} [BEq K]

@[simp] theorem odFind_nil (k : K) : odFind ([] : List (K × V)) k = none := rfl

@[simp] theorem odMem_nil (k : K) : odMem ([] : List (K × V)) k = false := rfl

theorem odFind_cons (p : K × V) (d : List (K × V)) (k : K) :
    odFind (p :: d) k = if p.1 == k then some p.2 else odFind d k := by
  unfold odFind
  cases h : p.1 == k <;> simp [List.find?, h]

theorem setAssoc_of_mem (d : List (K × V)) (k : K) (v : V)
    (hm : odMem d k = true) :
    setAssoc d k v = d.map (fun p => if p.1 == k then (k, v) else p) := by
  unfold setAssoc
  rw [hm]
  simp

theorem setAssoc_of_not_mem (d : List (K × V)) (k : K) (v : V)
    (hm : odMem d k = false) :
    setAssoc d k v = d ++ [(k, v)] := by
  unfold setAssoc
  rw [hm]
  simp

theorem odMem_eq_isSome (d : List (K × V)) (k : K) :
    odMem d k = (odFind d k).isSome := by
  unfold odMem odFind
  cases d.find? (fun p => p.1 == k) <;> rfl

theorem odMem_cons (p : K × V) (d : List (K × V)) (k : K) :
    odMem (p :: d) k = (p.1 == k || odMem d k) := by
  rw [odMem_eq_isSome, odMem_eq_isSome, odFind_cons]
  cases h : p.1 == k <;> simp

theorem odFind_append (d1 d2 : List (K × V)) (k : K) :
    odFind (d1 ++ d2) k =
      match odFind d1 k with
      | some v => some v
      | none => odFind d2 k := by
  induction d1 with
  | nil => simp
  | cons p d ih =>
    rw [List.cons_append, odFind_cons, odFind_cons]
    cases h : p.1 == k <;> simp [ih]

theorem odMem_append (d1 d2 : List (K × V)) (k : K) :
    odMem (d1 ++ d2) k = (odMem d1 k || odMem d2 k) := by
  rw [odMem_eq_isSome, odMem_eq_isSome, odMem_eq_isSome, odFind_append]
  cases h : odFind d1 k <;> simp

theorem odMem_keys [LawfulBEq K] (d : List (K × V)) (k : K) :
    odMem d k = (d.map (fun p => p.1)).contains k := by
  induction d with
  | nil => simp
  | cons p d ih =>
    rw [odMem_cons, List.map_cons, List.contains_cons, ih]
    cases h : p.1 == k
    · have h2 : (k == p.1) = false := by
        cases h3 : k == p.1
        · rfl
        · rw [eq_of_beq h3, beq_self_eq_true] at h
          exact absurd h (by simp)
      simp [h, h2]
    · rw [eq_of_beq h]
      simp

theorem odFind_updateMap_self [LawfulBEq K] (d : List (K × V)) (k : K) (v : V)
    (hm : odMem d k = true) :
    odFind (d.map (fun p => if p.1 == k then (k, v) else p)) k = some v := by
  induction d with
  | nil => simp at hm
  | cons p d ih =>
    rw [odMem_cons] at hm
    rw [List.map_cons, odFind_cons]
    cases h : p.1 == k with
    | true => simp [h]
    | false =>
      rw [h] at hm
      simp only [Bool.false_or] at hm
      simp only [h, Bool.false_eq_true, if_false]
      exact ih hm

theorem odFind_setAssoc_self [LawfulBEq K] (d : List (K × V)) (k : K) (v : V) :
    odFind (setAssoc d k v) k = some v := by
  cases hm : odMem d k with
  | false =>
    rw [setAssoc_of_not_mem d k v hm, odFind_append]
    rw [odMem_eq_isSome] at hm
    cases hf : odFind d k with
    | none => simp [odFind_cons]
    | some w => rw [hf] at hm; simp at hm
  | true =>
    rw [setAssoc_of_mem d k v hm]
    exact odFind_updateMap_self d k v hm

theorem odFind_updateMap_ne [LawfulBEq K] (d : List (K × V)) (k k' : K) (v : V)
    (hne : (k == k') = false) :
    odFind (d.map (fun p => if p.1 == k then (k, v) else p)) k' = odFind d k' := by
  induction d with
  | nil => simp
  | cons p d ih =>
    rw [List.map_cons, odFind_cons, odFind_cons]
    cases h : p.1 == k with
    | true =>
      have hp : (p.1 == k') = false := by
        cases h2 : p.1 == k'
        · rfl
        · rw [eq_of_beq h] at h2
          rw [h2] at hne
          exact absurd hne (by simp)
      simp only [h, if_true, hne, hp, if_false, Bool.false_eq_true]
      exact ih
    | false =>
      simp only [h, Bool.false_eq_true, if_false]
      cases h2 : p.1 == k' <;> simp [h2, ih]

theorem odFind_setAssoc_ne [LawfulBEq K] (d : List (K × V)) (k k' : K) (v : V)
    (hne : (k == k') = false) :
    odFind (setAssoc d k v) k' = odFind d k' := by
  cases hm : odMem d k with
  | false =>
    rw [setAssoc_of_not_mem d k v hm, odFind_append]
    cases hf : odFind d k' with
    | none => simp [odFind_cons, hne]
    | some w => simp [hf]
  | true =>
    rw [setAssoc_of_mem d k v hm]
    exact odFind_updateMap_ne d k k' v hne

theorem setAssoc_keys_of_mem [LawfulBEq K] (d : List (K × V)) (k : K) (v : V)
    (hm : odMem d k = true) :
    (setAssoc d k v).map (fun p => p.1) = d.map (fun p => p.1) := by
  rw [setAssoc_of_mem d k v hm, List.map_map]
  apply List.map_congr_left
  intro p _
  cases h : p.1 == k with
  | true =>
    simp only [Function.comp_apply, h, if_true]
    exact (eq_of_beq h).symm
  | false =>
    simp only [Function.comp_apply, h, Bool.false_eq_true, if_false]

end OdLemmas

/-! ### Equation lemmas for the construction pipeline -/

theorem localRegisterAt_none (st : RegState) (c : Cls)
    (h : findAttrOwner (regOwners st) c = none) : localRegisterAt st c = [] := by
  simp [localRegisterAt, h]

theorem localRegisterAt_some (st : RegState) (c o : Cls)
    (h : findAttrOwner (regOwners st) c = some o) :
    localRegisterAt st c = (odFind (registerDictAt st o) c).getD [] := by
  simp [localRegisterAt, h]

theorem findAttrOwner_mem (owners : List Cls) (c o : Cls)
    (h : findAttrOwner owners c = some o) : owners.contains o = true :=
  List.find?_some h

theorem odMem_of_isSome_false {K V : Type} [BEq K] (d : List (K × V)) (k : K)
    (h : odMem d k = false) : odFind d k = none := by
  rw [odMem_eq_isSome] at h
  cases hf : odFind d k with
  | none => rfl
  | some v => rw [hf] at h; simp at h

theorem localStep_dup (st : RegState) (c : Cls) (sv : String) (tok : Token)
    (o : Cls) (ho : findAttrOwner (regOwners st) c = some o)
    (hd : odMem ((odFind (registerDictAt st o) c).getD []) sv = true) :
    localStep st c sv tok =
      (some .duplicateLocal,
        ⟨setAssoc st.registers o (registerDictAt st o), st.indexes,
          st.numindexes⟩) := by
  have hmem : odMem (registerDictAt st o) c = true := by
    rw [odMem_eq_isSome]
    cases hf : odFind (registerDictAt st o) c with
    | none => rw [hf] at hd; simp at hd
    | some reg => rfl
  simp [localStep, ho, hmem, hd]

theorem setAssoc_append_single {K V : Type} [BEq K] [LawfulBEq K]
    (d : List (K × V)) (k : K) (v0 v : V) (hm : odMem d k = false) :
    setAssoc (d ++ [(k, v0)]) k v = d ++ [(k, v)] := by
  have hall : ∀ p ∈ d, (p.1 == k) = false := by
    intro p hp
    unfold odMem at hm
    cases hf : d.find? (fun q => q.1 == k) with
    | some q => rw [hf] at hm; simp at hm
    | none =>
      have := List.find?_eq_none.mp hf p hp
      simpa using this
  have hmem : odMem (d ++ [(k, v0)]) k = true := by
    rw [odMem_append, hm]
    simp [odMem_cons]
  rw [setAssoc_of_mem _ _ _ hmem, List.map_append]
  congr 1
  · calc d.map (fun p => if p.1 == k then (k, v) else p)
        = d.map id := List.map_congr_left (fun p hp => by
          simp [hall p hp])
      _ = d := List.map_id d
  · simp

theorem localStep_ok (st : RegState) (c : Cls) (sv : String) (tok : Token)
    (o : Cls) (ho : findAttrOwner (regOwners st) c = some o)
    (hnew : odMem ((odFind (registerDictAt st o) c).getD []) sv = false) :
    localStep st c sv tok =
      (none,
        ⟨setAssoc st.registers o
            (setAssoc (registerDictAt st o) c
              ((odFind (registerDictAt st o) c).getD [] ++ [(sv, tok)])),
          st.indexes, st.numindexes⟩) := by
  cases hm : odMem (registerDictAt st o) c with
  | true => simp [localStep, ho, hm, hnew]
  | false =>
    have hfind : odFind (registerDictAt st o) c = none :=
      odMem_of_isSome_false _ _ hm
    have hreg : odFind (registerDictAt st o ++ [(c, [])]) c =
        some ([] : List (String × Token)) := by
      rw [odFind_append, hfind]
      simp [odFind_cons]
    simp [localStep, ho, hm, hreg, hfind]
    rw [setAssoc_append_single _ _ _ _ hm, setAssoc_of_not_mem _ _ _ hm]

theorem strIndexStep_skip (st : RegState) (c : Cls) (sv : String) (tok : Token)
    (h : findAttrOwner (strOwners st) c = none) :
    strIndexStep st c sv tok = (none, st) := by
  simp [strIndexStep, h]

theorem strIndexStep_dup (st : RegState) (c : Cls) (sv : String) (tok : Token)
    (o : Cls) (ho : findAttrOwner (strOwners st) c = some o)
    (hd : odMem (strIndexAt st o) sv = true) :
    strIndexStep st c sv tok = (some .duplicateGlobalStr, st) := by
  simp [strIndexStep, ho, hd]

theorem strIndexStep_ok (st : RegState) (c : Cls) (sv : String) (tok : Token)
    (o : Cls) (ho : findAttrOwner (strOwners st) c = some o)
    (hn : odMem (strIndexAt st o) sv = false) :
    strIndexStep st c sv tok =
      (none,
        ⟨st.registers, setAssoc st.indexes o (strIndexAt st o ++ [(sv, tok)]),
          st.numindexes⟩) := by
  simp [strIndexStep, ho, hn]

theorem numIndexStep_skip (st : RegState) (c : Cls) (iv : Option Int)
    (tok : Token) (h : findAttrOwner (numOwners st) c = none) :
    numIndexStep st c iv tok = (none, st) := by
  simp [numIndexStep, h]

theorem numIndexStep_dup (st : RegState) (c : Cls) (iv : Option Int)
    (tok : Token) (o : Cls) (ho : findAttrOwner (numOwners st) c = some o)
    (hd : odMem (numIndexAt st o) iv = true) :
    numIndexStep st c iv tok = (some .duplicateGlobalInt, st) := by
  simp [numIndexStep, ho, hd]

theorem numIndexStep_ok (st : RegState) (c : Cls) (iv : Option Int)
    (tok : Token) (o : Cls) (ho : findAttrOwner (numOwners st) c = some o)
    (hn : odMem (numIndexAt st o) iv = false) :
    numIndexStep st c iv tok =
      (none,
        ⟨st.registers, st.indexes,
          setAssoc st.numindexes o (numIndexAt st o ++ [(iv, tok)])⟩) := by
  simp [numIndexStep, ho, hn]

theorem localStep_fields (st : RegState) (c : Cls) (sv : String) (tok : Token) :
    (localStep st c sv tok).2.indexes = st.indexes ∧
    (localStep st c sv tok).2.numindexes = st.numindexes := by
  unfold localStep
  cases h : findAttrOwner (regOwners st) c with
  | none => exact ⟨rfl, rfl⟩
  | some o =>
    dsimp only
    split <;> split <;> exact ⟨rfl, rfl⟩

theorem strIndexStep_fields (st : RegState) (c : Cls) (sv : String)
    (tok : Token) :
    (strIndexStep st c sv tok).2.registers = st.registers ∧
    (strIndexStep st c sv tok).2.numindexes = st.numindexes := by
  unfold strIndexStep
  cases h : findAttrOwner (strOwners st) c with
  | none => exact ⟨rfl, rfl⟩
  | some o =>
    dsimp only
    split
    · exact ⟨rfl, rfl⟩
    · exact ⟨rfl, rfl⟩

/-- Successful construction decomposes into the three pipeline steps, each
succeeding in order. -/
theorem tokenInit_ok_inv (st : RegState) (c : Cls) (a : InitArgs) (fid : Nat)
    (tok : Token) (stf : RegState)
    (h : tokenInit st c a fid = (.ok tok, stf)) :
    ∃ sv st1 st2, (resolveVal a fid).strval = some sv ∧
      tok = ⟨c, resolveVal a fid⟩ ∧
      localStep st c sv tok = (none, st1) ∧
      strIndexStep st1 c sv tok = (none, st2) ∧
      numIndexStep st2 c (resolveVal a fid).intval tok = (none, stf) := by
  cases hsv : (resolveVal a fid).strval with
  | none => simp [tokenInit, hsv] at h
  | some sv =>
    cases hloc : localStep st c sv ⟨c, resolveVal a fid⟩ with
    | mk e1 st1 =>
      cases e1 with
      | some e => simp [tokenInit, hsv, hloc] at h
      | none =>
        cases hsi : strIndexStep st1 c sv ⟨c, resolveVal a fid⟩ with
        | mk e2 st2 =>
          cases e2 with
          | some e => simp [tokenInit, hsv, hloc, hsi] at h
          | none =>
            cases hni : numIndexStep st2 c (resolveVal a fid).intval
                ⟨c, resolveVal a fid⟩ with
            | mk e3 st3 =>
              cases e3 with
              | some e => simp [tokenInit, hsv, hloc, hsi, hni] at h
              | none =>
                simp [tokenInit, hsv, hloc, hsi, hni] at h
                obtain ⟨h1, h2⟩ := h
                subst h2
                subst h1
                exact ⟨sv, st1, st2, rfl, rfl, hloc, hsi, hni⟩

/-- Inversion of a successful `numIndexStep`: either no int index is
resolved, or the key was absent and was appended. -/
theorem numIndexStep_ok_inv (st : RegState) (c : Cls) (iv : Option Int)
    (tok : Token) (stf : RegState)
    (h : numIndexStep st c iv tok = (none, stf)) :
    (findAttrOwner (numOwners st) c = none ∧ stf = st) ∨
    (∃ o, findAttrOwner (numOwners st) c = some o ∧
      odMem (numIndexAt st o) iv = false ∧
      stf = ⟨st.registers, st.indexes,
        setAssoc st.numindexes o (numIndexAt st o ++ [(iv, tok)])⟩) := by
  cases ho : findAttrOwner (numOwners st) c with
  | none =>
    rw [numIndexStep_skip st c iv tok ho] at h
    obtain ⟨-, h2⟩ := Prod.mk.injEq .. ▸ h
    exact .inl ⟨rfl, h2.symm⟩
  | some o =>
    cases hm : odMem (numIndexAt st o) iv with
    | true => rw [numIndexStep_dup st c iv tok o ho hm] at h; simp at h
    | false =>
      rw [numIndexStep_ok st c iv tok o ho hm] at h
      obtain ⟨-, h2⟩ := Prod.mk.injEq .. ▸ h
      exact .inr ⟨o, rfl, hm, h2.symm⟩

/-- A successful construction under a class whose MRO resolves a global int
index appends `(int value, token)` — with the int value possibly absent — to
that index. -/
theorem tokenInit_ok_numindex (st : RegState) (c : Cls) (a : InitArgs)
    (fid : Nat) (o : Cls) (tok : Token) (stf : RegState)
    (ho : findAttrOwner (numOwners st) c = some o)
    (hok : tokenInit st c a fid = (.ok tok, stf)) :
    numIndexAt stf o = numIndexAt st o ++ [((resolveVal a fid).intval, tok)] := by
  obtain ⟨sv, st1, st2, hsv, htok, hloc, hsi, hni⟩ :=
    tokenInit_ok_inv st c a fid tok stf hok
  have h1 : st1.numindexes = st.numindexes := by
    have := (localStep_fields st c sv tok).2
    rw [hloc] at this
    exact this
  have h2 : st2.numindexes = st.numindexes := by
    have := (strIndexStep_fields st1 c sv tok).2
    rw [hsi] at this
    rw [this, h1]
  have ho2 : findAttrOwner (numOwners st2) c = some o := by
    unfold numOwners
    rw [h2]
    exact ho
  rcases numIndexStep_ok_inv st2 c (resolveVal a fid).intval tok stf hni with
    ⟨hn, -⟩ | ⟨o2, ho3, hm, hstf⟩
  · rw [ho2] at hn
    exact absurd hn (by simp)
  · rw [ho2] at ho3
    have ho4 : o = o2 := Option.some_inj.mp ho3
    rw [← ho4] at hstf
    have hnia : numIndexAt st2 o = numIndexAt st o := by
      unfold numIndexAt
      rw [h2]
    rw [hstf]
    show (odFind (setAssoc st2.numindexes o
      (numIndexAt st2 o ++ [((resolveVal a fid).intval, tok)])) o).getD [] =
      numIndexAt st o ++ [((resolveVal a fid).intval, tok)]
    rw [odFind_setAssoc_self, hnia]
    rfl

/-- No construction can succeed for a class whose MRO resolves a global int
index already containing the construction's int-value key (present or
absent). -/
theorem tokenInit_numindex_dup_blocks (st : RegState) (c : Cls) (a : InitArgs)
    (fid : Nat) (o : Cls)
    (ho : findAttrOwner (numOwners st) c = some o)
    (hd : odMem (numIndexAt st o) (resolveVal a fid).intval = true) :
    ∀ tok stf, tokenInit st c a fid ≠ (.ok tok, stf) := by
  intro tok stf hok
  obtain ⟨sv, st1, st2, hsv, htok, hloc, hsi, hni⟩ :=
    tokenInit_ok_inv st c a fid tok stf hok
  have h1 : st1.numindexes = st.numindexes := by
    have := (localStep_fields st c sv tok).2
    rw [hloc] at this
    exact this
  have h2 : st2.numindexes = st.numindexes := by
    have := (strIndexStep_fields st1 c sv tok).2
    rw [hsi] at this
    rw [this, h1]
  have ho2 : findAttrOwner (numOwners st2) c = some o := by
    unfold numOwners
    rw [h2]
    exact ho
  have hd2 : odMem (numIndexAt st2 o) (resolveVal a fid).intval = true := by
    unfold numIndexAt
    rw [h2]
    exact hd
  rw [numIndexStep_dup st2 c (resolveVal a fid).intval tok o ho2 hd2] at hni
  simp at hni

/-! ### Enumeration-order machinery -/

theorem contains_true_iff {α : Type} [BEq α] [LawfulBEq α] (l : List α)
    (a : α) : l.contains a = true ↔ a ∈ l :=
  List.elem_iff

theorem insertGrouped_eq (g : List (Cls × List (String × Token))) (t : Token) :
    insertGrouped g t =
      setAssoc g t.cls ((odFind g t.cls).getD [] ++ [(tokName t, t)]) := by
  unfold insertGrouped
  cases hm : odMem g t.cls with
  | true => simp [hm]
  | false =>
    have hfind := odMem_of_isSome_false g t.cls hm
    have hreg : odFind (g ++ [(t.cls, [])]) t.cls =
        some ([] : List (String × Token)) := by
      rw [odFind_append, hfind]
      simp [odFind_cons]
    simp [hm, hreg, hfind]
    rw [setAssoc_append_single _ _ _ _ hm, setAssoc_of_not_mem _ _ _ hm]

theorem insertGrouped_keys (g : List (Cls × List (String × Token)))
    (t : Token) :
    (insertGrouped g t).map (fun p => p.1) =
      if (g.map (fun p => p.1)).contains t.cls then g.map (fun p => p.1)
      else g.map (fun p => p.1) ++ [t.cls] := by
  rw [insertGrouped_eq]
  cases hm : odMem g t.cls with
  | true =>
    have hc : (g.map (fun p => p.1)).contains t.cls = true := by
      rw [← odMem_keys]
      exact hm
    rw [setAssoc_keys_of_mem _ _ _ hm, hc]
    simp
  | false =>
    have hc : (g.map (fun p => p.1)).contains t.cls = false := by
      rw [← odMem_keys]
      exact hm
    rw [setAssoc_of_not_mem _ _ _ hm, List.map_append, hc]
    simp

theorem localStep_ok_inv (st : RegState) (c : Cls) (sv : String) (tok : Token)
    (st1 : RegState) (o : Cls)
    (h : localStep st c sv tok = (none, st1))
    (ho : findAttrOwner (regOwners st) c = some o) :
    odMem ((odFind (registerDictAt st o) c).getD []) sv = false ∧
    st1 = ⟨setAssoc st.registers o
        (setAssoc (registerDictAt st o) c
          ((odFind (registerDictAt st o) c).getD [] ++ [(sv, tok)])),
      st.indexes, st.numindexes⟩ := by
  cases hm : odMem ((odFind (registerDictAt st o) c).getD []) sv with
  | true => rw [localStep_dup st c sv tok o ho hm] at h; simp at h
  | false =>
    rw [localStep_ok st c sv tok o ho hm] at h
    obtain ⟨-, h2⟩ := Prod.mk.injEq .. ▸ h
    exact ⟨rfl, h2.symm⟩

theorem numIndexStep_fields (st : RegState) (c : Cls) (iv : Option Int)
    (tok : Token) :
    (numIndexStep st c iv tok).2.registers = st.registers ∧
    (numIndexStep st c iv tok).2.indexes = st.indexes := by
  unfold numIndexStep
  cases h : findAttrOwner (numOwners st) c with
  | none => exact ⟨rfl, rfl⟩
  | some o =>
    dsimp only
    split
    · exact ⟨rfl, rfl⟩
    · exact ⟨rfl, rfl⟩

/-- A successful construction updates the owning root's `_register` dict by
exactly one grouped insertion of the constructed token, and preserves the
`_register` ownership map. -/
theorem tokenInit_ok_register (st : RegState) (c : Cls) (a : InitArgs)
    (fid : Nat) (o : Cls) (tok : Token) (stf : RegState)
    (ho : findAttrOwner (regOwners st) c = some o)
    (hok : tokenInit st c a fid = (.ok tok, stf)) :
    registerDictAt stf o = insertGrouped (registerDictAt st o) tok ∧
    regOwners stf = regOwners st ∧ tok.cls = c := by
  obtain ⟨sv, st1, st2, hsv, htok, hloc, hsi, hni⟩ :=
    tokenInit_ok_inv st c a fid tok stf hok
  obtain ⟨hnew, hst1⟩ := localStep_ok_inv st c sv tok st1 o hloc ho
  have hcls : tok.cls = c := by rw [htok]
  have hname : tokName tok = sv := by
    rw [htok]
    show (resolveVal a fid).strval.getD "" = sv
    rw [hsv]
    rfl
  have hr2 : st2.registers = st1.registers := by
    have := (strIndexStep_fields st1 c sv tok).1
    rw [hsi] at this
    exact this
  have hr3 : stf.registers = st2.registers := by
    have := (numIndexStep_fields st2 c (resolveVal a fid).intval tok).1
    rw [hni] at this
    exact this
  have hregs : stf.registers = setAssoc st.registers o
      (setAssoc (registerDictAt st o) c
        ((odFind (registerDictAt st o) c).getD [] ++ [(sv, tok)])) := by
    rw [hr3, hr2, hst1]
  have hmemo : odMem st.registers o = true := by
    rw [odMem_keys]
    exact findAttrOwner_mem (regOwners st) c o ho
  refine ⟨?_, ?_, hcls⟩
  · unfold registerDictAt
    rw [hregs, odFind_setAssoc_self]
    rw [insertGrouped_eq, hcls, hname]
    rfl
  · unfold regOwners
    rw [hregs]
    exact setAssoc_keys_of_mem _ _ _ hmemo

theorem runEvents_length_le (evs : List Ev) :
    ∀ st fid, (runEvents st evs fid).1.length ≤ evs.length := by
  induction evs with
  | nil =>
    intro st fid
    simp [runEvents]
  | cons e rest ih =>
    intro st fid
    cases hti : tokenInit st e.cls (argsOf e) fid with
    | mk r st1 =>
      cases r with
      | ok t =>
        simp only [runEvents, hti, List.length_cons]
        exact Nat.succ_le_succ (ih st1 (fid + 1))
      | error er =>
        simp only [runEvents, hti, List.length_cons]
        exact Nat.le_succ_of_le (ih st1 (fid + 1))

/-- Running a sequence of constructions that all resolve the same register
owner and all succeed folds the grouped insertion over the owner's
`_register` dict, and preserves the ownership map. -/
theorem runEvents_register (evs : List Ev) :
    ∀ st fid o g, registerDictAt st o = g →
      (∀ e ∈ evs, findAttrOwner (regOwners st) e.cls = some o) →
      (runEvents st evs fid).1.length = evs.length →
      registerDictAt (runEvents st evs fid).2 o =
        (runEvents st evs fid).1.foldl insertGrouped g ∧
      regOwners (runEvents st evs fid).2 = regOwners st := by
  induction evs with
  | nil =>
    intro st fid o g hg hres hall
    refine ⟨?_, rfl⟩
    simp only [runEvents, List.foldl_nil]
    exact hg
  | cons e rest ih =>
    intro st fid o g hg hres hall
    cases hti : tokenInit st e.cls (argsOf e) fid with
    | mk r st1 =>
      cases r with
      | error er =>
        have hle := runEvents_length_le rest st1 (fid + 1)
        simp only [runEvents, hti, List.length_cons] at hall
        omega
      | ok t =>
        have ho := hres e (List.mem_cons_self e rest)
        obtain ⟨hreg1, hown1, hcls⟩ :=
          tokenInit_ok_register st e.cls (argsOf e) fid o t st1 ho hti
        have hres1 : ∀ e2 ∈ rest,
            findAttrOwner (regOwners st1) e2.cls = some o := by
          intro e2 he2
          rw [hown1]
          exact hres e2 (List.mem_cons_of_mem e he2)
        have hall1 : (runEvents st1 rest (fid + 1)).1.length = rest.length := by
          simp only [runEvents, hti, List.length_cons] at hall
          omega
        obtain ⟨ih1, ih2⟩ := ih st1 (fid + 1) o (insertGrouped g t)
          (by rw [hreg1, hg]) hres1 hall1
        constructor
        · simp only [runEvents, hti, List.foldl_cons]
          exact ih1
        · simp only [runEvents, hti]
          rw [ih2, hown1]

theorem contains_append {α : Type} [BEq α] (l1 l2 : List α) (a : α) :
    (l1 ++ l2).contains a = (l1.contains a || l2.contains a) := by
  induction l1 with
  | nil => simp
  | cons x xs ih => simp [List.contains_cons, ih, Bool.or_assoc]

theorem flatMap_congr_mem {α β : Type} (l : List α) (f g : α → List β)
    (h : ∀ x ∈ l, f x = g x) : l.flatMap f = l.flatMap g := by
  induction l with
  | nil => rfl
  | cons x xs ih =>
    rw [List.flatMap_cons, List.flatMap_cons, h x (List.mem_cons_self x xs),
      ih (fun y hy => h y (List.mem_cons_of_mem x hy))]

theorem foldl_insertGrouped_keys (toks : List Token) :
    ∀ g, ((toks.foldl insertGrouped g).map (fun p => p.1)) =
      toks.foldl
        (fun acc t => if acc.contains t.cls then acc else acc ++ [t.cls])
        (g.map (fun p => p.1)) := by
  induction toks with
  | nil => intro g; rfl
  | cons t ts ih =>
    intro g
    rw [List.foldl_cons, List.foldl_cons, ih (insertGrouped g t),
      insertGrouped_keys]

theorem groupReg_keys (toks : List Token) :
    (toks.foldl insertGrouped []).map (fun p => p.1) =
      firstOcc (toks.map (fun t => t.cls)) := by
  rw [foldl_insertGrouped_keys toks []]
  unfold firstOcc
  rw [List.foldl_map]
  rfl

theorem foldl_firstOcc_nodup (xs : List Cls) :
    ∀ acc : List Cls, acc.Nodup →
      (xs.foldl (fun acc x => if acc.contains x then acc else acc ++ [x])
        acc).Nodup := by
  induction xs with
  | nil => intro acc h; exact h
  | cons x xs ih =>
    intro acc h
    rw [List.foldl_cons]
    cases hc : acc.contains x with
    | true =>
      have he : (if true = true then acc else acc ++ [x]) = acc := by simp
      rw [he]
      exact ih acc h
    | false =>
      have hne : x ∉ acc := fun hx => by
        rw [(contains_true_iff acc x).mpr hx] at hc
        exact Bool.noConfusion hc
      have he : (if false = true then acc else acc ++ [x]) = acc ++ [x] := by
        simp
      rw [he]
      apply ih
      rw [List.nodup_append]
      refine ⟨h, List.nodup_singleton x, ?_⟩
      intro a ha hax
      rw [List.mem_singleton] at hax
      rw [hax] at ha
      exact hne ha

theorem groupReg_keys_nodup (toks : List Token) :
    ((toks.foldl insertGrouped []).map (fun p => p.1)).Nodup := by
  rw [groupReg_keys]
  exact foldl_firstOcc_nodup _ [] List.nodup_nil

theorem foldl_firstOcc_mem (xs : List Cls) :
    ∀ acc d,
      d ∈ xs.foldl (fun acc x => if acc.contains x then acc else acc ++ [x])
        acc →
      d ∈ acc ∨ d ∈ xs := by
  induction xs with
  | nil => intro acc d h; exact .inl h
  | cons x xs ih =>
    intro acc d h
    rw [List.foldl_cons] at h
    rcases ih _ d h with h1 | h2
    · cases hc : acc.contains x with
      | true =>
        rw [hc] at h1
        simp at h1
        exact .inl h1
      | false =>
        rw [hc] at h1
        simp at h1
        rcases h1 with h1 | h1
        · exact .inl h1
        · exact .inr (by rw [h1]; exact List.mem_cons_self x xs)
    · exact .inr (List.mem_cons_of_mem x h2)

theorem firstOcc_subset (xs : List Cls) (d : Cls) (h : d ∈ firstOcc xs) :
    d ∈ xs := by
  rcases foldl_firstOcc_mem xs [] d h with h1 | h2
  · simp at h1
  · exact h2

theorem filter_cls_eq_nil (toks : List Token) (d : Cls)
    (h : (toks.map (fun t => t.cls)).contains d = false) :
    toks.filter (fun t => t.cls == d) = [] := by
  rw [List.filter_eq_nil_iff]
  intro t ht hbeq
  have hm : d ∈ toks.map (fun t => t.cls) := by
    rw [← eq_of_beq hbeq]
    exact List.mem_map_of_mem (fun t => t.cls) ht
  rw [(contains_true_iff _ d).mpr hm] at h
  exact Bool.noConfusion h

/-- The content of the grouped register built by a run: the entry of class
`d` holds exactly the constructed tokens of class `d`, keyed by name, in
construction order. -/
theorem groupReg_odFind (toks : List Token) (d : Cls) :
    odFind (toks.foldl insertGrouped []) d =
      if (toks.map (fun t => t.cls)).contains d then
        some ((toks.filter (fun t => t.cls == d)).map (fun t => (tokName t, t)))
      else none := by
  induction toks using List.reverseRecOn with
  | nil => simp
  | append_singleton ts t ih =>
    rw [List.foldl_append, List.foldl_cons, List.foldl_nil, insertGrouped_eq,
      List.map_append, List.filter_append]
    cases hd : t.cls == d with
    | true =>
      have hdd : t.cls = d := eq_of_beq hd
      subst hdd
      rw [odFind_setAssoc_self]
      have hcontains : ((ts.map (fun t => t.cls)) ++ [t].map
          (fun t => t.cls)).contains t.cls = true := by
        rw [contains_append]
        simp [List.contains_cons]
      rw [hcontains]
      simp only [if_true, List.map_cons, List.map_nil]
      cases hc : (ts.map (fun t => t.cls)).contains t.cls with
      | true =>
        rw [ih, hc]
        simp [List.filter_cons, List.map_append]
      | false =>
        rw [ih, hc]
        simp [filter_cls_eq_nil ts t.cls hc, List.filter_cons]
    | false =>
      have hdsym : (d == t.cls) = false := by
        cases h2 : d == t.cls
        · rfl
        · rw [eq_of_beq h2, beq_self_eq_true] at hd
          exact Bool.noConfusion hd
      rw [odFind_setAssoc_ne _ _ _ _ hd, ih, contains_append]
      simp [List.contains_cons, hdsym, List.filter_cons, hd]
      have hne : d ≠ t.cls := fun hEq => by
        rw [hEq, beq_self_eq_true] at hd
        exact Bool.noConfusion hd
      simp [hne]

/-- Flattening a grouped dict with unique keys equals flattening by keys. -/
theorem tokensOfDict_eq_keys (g : List (Cls × List (String × Token)))
    (c : Cls) (hnd : (g.map (fun p => p.1)).Nodup) :
    tokensOfDict g c =
      ((g.map (fun p => p.1)).filter
          (fun d => issubclassB d c || d == c)).flatMap
        (fun d => ((odFind g d).getD []).map (fun q => q.2)) := by
  induction g with
  | nil => simp [tokensOfDict]
  | cons p g ih =>
    rw [List.map_cons] at hnd
    obtain ⟨hnotin, hnd2⟩ := List.nodup_cons.mp hnd
    have hcong : ∀ d ∈ (g.map (fun p => p.1)).filter
        (fun d => issubclassB d c || d == c),
        ((odFind (p :: g) d).getD []).map (fun q => q.2) =
          ((odFind g d).getD []).map (fun q => q.2) := by
      intro d hdmem
      have hdk : d ∈ g.map (fun p => p.1) := (List.mem_filter.mp hdmem).1
      have hne : (p.1 == d) = false := by
        cases h2 : p.1 == d
        · rfl
        · have : p.1 ∈ g.map (fun q => q.1) := by
            rw [eq_of_beq h2]
            exact hdk
          exact absurd this hnotin
      rw [odFind_cons, hne]
      simp
    unfold tokensOfDict
    rw [List.map_cons]
    cases hP : (issubclassB p.1 c || p.1 == c) with
    | true =>
      rw [List.filter_cons_of_pos (by exact hP),
        List.filter_cons_of_pos (by exact hP), List.flatMap_cons,
        List.flatMap_cons]
      have hhead : ((odFind (p :: g) p.1).getD []).map (fun q => q.2) =
          p.2.map (fun q => q.2) := by
        rw [odFind_cons]
        simp
      rw [hhead]
      congr 1
      calc (g.filter (fun q => issubclassB q.1 c || q.1 == c)).flatMap
            (fun q => q.2.map (fun r => r.2))
          = tokensOfDict g c := rfl
        _ = ((g.map (fun p => p.1)).filter
              (fun d => issubclassB d c || d == c)).flatMap
            (fun d => ((odFind g d).getD []).map (fun q => q.2)) := ih hnd2
        _ = ((g.map (fun p => p.1)).filter
              (fun d => issubclassB d c || d == c)).flatMap
            (fun d => ((odFind (p :: g) d).getD []).map (fun q => q.2)) :=
          (flatMap_congr_mem _ _ _ hcong).symm
    | false =>
      rw [List.filter_cons_of_neg (by simp [hP]),
        List.filter_cons_of_neg (by simp [hP])]
      calc (g.filter (fun q => issubclassB q.1 c || q.1 == c)).flatMap
            (fun q => q.2.map (fun r => r.2))
          = tokensOfDict g c := rfl
        _ = ((g.map (fun p => p.1)).filter
              (fun d => issubclassB d c || d == c)).flatMap
            (fun d => ((odFind g d).getD []).map (fun q => q.2)) := ih hnd2
        _ = ((g.map (fun p => p.1)).filter
              (fun d => issubclassB d c || d == c)).flatMap
            (fun d => ((odFind (p :: g) d).getD []).map (fun q => q.2)) :=
          (flatMap_congr_mem _ _ _ hcong).symm

/-- The flattened register built by a run matches the spec-side enumeration
order. -/
theorem tokensOfDict_groupReg (toks : List Token) (c : Cls) :
    tokensOfDict (toks.foldl insertGrouped []) c = specTokensOrder toks c := by
  rw [tokensOfDict_eq_keys _ c (groupReg_keys_nodup toks), groupReg_keys]
  unfold specTokensOrder
  apply flatMap_congr_mem
  intro d hdmem
  have hdk : d ∈ firstOcc (toks.map (fun t => t.cls)) :=
    (List.mem_filter.mp hdmem).1
  have hdx : d ∈ toks.map (fun t => t.cls) := firstOcc_subset _ d hdk
  have hcont : (toks.map (fun t => t.cls)).contains d = true :=
    (contains_true_iff _ d).mpr hdx
  rw [groupReg_odFind, hcont]
  simp only [if_true, Option.getD_some, List.map_map]
  calc ((toks.filter (fun t => t.cls == d)).map
        (fun t => ((fun q => q.2) ∘ fun t => (tokName t, t)) t))
      = (toks.filter (fun t => t.cls == d)).map id := rfl
    _ = toks.filter (fun t => t.cls == d) := List.map_id _

/-! ### Claim theorems -/


/-- C1: two `Token` instances compare equal under `Token.__eq__` iff they
have the same class tag, the same string value and the same int value; since
the int values are compared as optional values, two absent int values count
as equal. -/
theorem c1_token_equality (t1 t2 : Token) :
    tokenEq t1 t2 = true ↔
      t1.cls = t2.cls ∧ t1.val.strval = t2.val.strval ∧
        t1.val.intval = t2.val.intval := by
  unfold tokenEq Token.str Token.int
  simp only [Bool.and_eq_true, beq_iff_eq]
  exact and_assoc

/-- C2 (failing evaluation): two tokens constructed independently from
identical arguments (class id 1, name `EQ`, no int value) in two separate
processes — modelled as two runs from the initial state, allocating value
bundles with distinct object ids 0 and 1 — are value-equal, yet their hashes
differ, because `Token.__hash__` is `hash(s._val)` and `TokenValue` has only
the default identity-based object hash.  This refutes the claim that the hash
is derived from the value bundle's content consistently with equality. -/
theorem c2_value_equal_tokens_hash_differently :
    (tokenInit RegState.start [1, 0]
        ⟨some "EQ", none, none, none, .noneV, none⟩ 0).1 =
      .ok ⟨[1, 0], ⟨some "EQ", none, none, none, .noneV, 0⟩⟩ ∧
    (tokenInit RegState.start [1, 0]
        ⟨some "EQ", none, none, none, .noneV, none⟩ 1).1 =
      .ok ⟨[1, 0], ⟨some "EQ", none, none, none, .noneV, 1⟩⟩ ∧
    tokenEq ⟨[1, 0], ⟨some "EQ", none, none, none, .noneV, 0⟩⟩
        ⟨[1, 0], ⟨some "EQ", none, none, none, .noneV, 1⟩⟩ = true ∧
    tokenHash ⟨[1, 0], ⟨some "EQ", none, none, none, .noneV, 0⟩⟩ ≠
      tokenHash ⟨[1, 0], ⟨some "EQ", none, none, none, .noneV, 1⟩⟩ :=
  ⟨rfl, rfl, rfl, by decide⟩

/-- C3: constructing a token whose name is already present in its class's
local register raises the duplicate error, and both global indexes of the
owning root (in fact all global string and int indexes in the state) are
unchanged by the failed construction. -/
theorem c3_duplicate_local_keeps_global_indexes (st : RegState) (c : Cls)
    (a : InitArgs) (fid : Nat) (sv : String)
    (hsv : (resolveVal a fid).strval = some sv)
    (hdup : odMem (localRegisterAt st c) sv = true) :
    (tokenInit st c a fid).1 = .error .duplicateLocal ∧
    (tokenInit st c a fid).2.indexes = st.indexes ∧
    (tokenInit st c a fid).2.numindexes = st.numindexes := by
  cases ho : findAttrOwner (regOwners st) c with
  | none =>
    rw [localRegisterAt_none st c ho] at hdup
    simp at hdup
  | some o =>
    rw [localRegisterAt_some st c o ho] at hdup
    have hls := localStep_dup st c sv ⟨c, resolveVal a fid⟩ o ho hdup
    refine ⟨?_, ?_, ?_⟩ <;> simp [tokenInit, hsv, hls]

/-- C3 witness: construct `A` in class `[1, 0]` from the initial state, then
construct `A` there again — the second construction hits the duplicate error
and leaves the (empty) index lists unchanged. -/
theorem c3_duplicate_local_keeps_global_indexes_witness :
    (resolveVal ⟨some "A", none, none, none, .noneV, none⟩ 1).strval =
      some "A" ∧
    odMem (localRegisterAt (tokenInit RegState.start [1, 0]
        ⟨some "A", none, none, none, .noneV, none⟩ 0).2 [1, 0]) "A" = true ∧
    ((tokenInit (tokenInit RegState.start [1, 0]
          ⟨some "A", none, none, none, .noneV, none⟩ 0).2 [1, 0]
        ⟨some "A", none, none, none, .noneV, none⟩ 1).1 =
      .error .duplicateLocal ∧
    (tokenInit (tokenInit RegState.start [1, 0]
          ⟨some "A", none, none, none, .noneV, none⟩ 0).2 [1, 0]
        ⟨some "A", none, none, none, .noneV, none⟩ 1).2.indexes =
      (tokenInit RegState.start [1, 0]
        ⟨some "A", none, none, none, .noneV, none⟩ 0).2.indexes ∧
    (tokenInit (tokenInit RegState.start [1, 0]
          ⟨some "A", none, none, none, .noneV, none⟩ 0).2 [1, 0]
        ⟨some "A", none, none, none, .noneV, none⟩ 1).2.numindexes =
      (tokenInit RegState.start [1, 0]
        ⟨some "A", none, none, none, .noneV, none⟩ 0).2.numindexes) :=
  ⟨rfl, by decide,
    c3_duplicate_local_keeps_global_indexes _ [1, 0] _ 1 "A" rfl (by decide)⟩

/-- C4: a construction whose name is new in its class's local register but
already present in the owning root's global string index raises the
duplicate error, yet the new token has already been inserted into the local
register and remains there in the post-error state (registration is not
atomic). -/
theorem c4_global_duplicate_keeps_local_insert (st : RegState) (c : Cls)
    (a : InitArgs) (fid : Nat) (sv : String) (ro io : Cls)
    (hsv : (resolveVal a fid).strval = some sv)
    (hro : findAttrOwner (regOwners st) c = some ro)
    (hnew : odMem ((odFind (registerDictAt st ro) c).getD []) sv = false)
    (hio : findAttrOwner (strOwners st) c = some io)
    (hglob : odMem (strIndexAt st io) sv = true) :
    (tokenInit st c a fid).1 = .error .duplicateGlobalStr ∧
    odFind (localRegisterAt (tokenInit st c a fid).2 c) sv =
      some ⟨c, resolveVal a fid⟩ := by
  have hls := localStep_ok st c sv ⟨c, resolveVal a fid⟩ ro hro hnew
  set X := setAssoc (registerDictAt st ro) c
      ((odFind (registerDictAt st ro) c).getD []
        ++ [(sv, (⟨c, resolveVal a fid⟩ : Token))]) with hX
  have hsis := strIndexStep_dup
    ⟨setAssoc st.registers ro X, st.indexes, st.numindexes⟩ c sv
    ⟨c, resolveVal a fid⟩ io hio hglob
  have htok : tokenInit st c a fid =
      (.error .duplicateGlobalStr,
        ⟨setAssoc st.registers ro X, st.indexes, st.numindexes⟩) := by
    simp [tokenInit, hsv, hls, hsis]
  rw [htok]
  refine ⟨rfl, ?_⟩
  have hmemro : odMem st.registers ro = true := by
    rw [odMem_keys]
    exact findAttrOwner_mem (regOwners st) c ro hro
  have hfo1 : findAttrOwner
      (regOwners (⟨setAssoc st.registers ro X, st.indexes, st.numindexes⟩ :
        RegState)) c = some ro := by
    show findAttrOwner ((setAssoc st.registers ro X).map (fun p => p.1)) c =
      some ro
    rw [setAssoc_keys_of_mem st.registers ro X hmemro]
    exact hro
  rw [localRegisterAt_some _ c ro hfo1]
  show odFind ((odFind ((odFind (setAssoc st.registers ro X) ro).getD []) c).getD
    []) sv = some ⟨c, resolveVal a fid⟩
  rw [odFind_setAssoc_self st.registers ro X]
  show odFind ((odFind X c).getD []) sv = some ⟨c, resolveVal a fid⟩
  rw [hX, odFind_setAssoc_self]
  show odFind ((odFind (registerDictAt st ro) c).getD []
    ++ [(sv, (⟨c, resolveVal a fid⟩ : Token))]) sv = some ⟨c, resolveVal a fid⟩
  rw [odFind_append, odMem_of_isSome_false _ _ hnew]
  simp [odFind_cons]

/-- C4 witness: under a string-indexed root `[1, 0]` holding token `X`,
constructing `X` in the subclass `[2, 1, 0]` (name new in that class's local
register) raises the global duplicate error while `X` stays registered in
the subclass's local register. -/
theorem c4_global_duplicate_keeps_local_insert_witness :
    (resolveVal ⟨some "X", none, none, none, .noneV, none⟩ 1).strval =
      some "X" ∧
    findAttrOwner (regOwners (tokenInit
        (makeroot RegState.start [1, 0] true false) [1, 0]
        ⟨some "X", none, none, none, .noneV, none⟩ 0).2) [2, 1, 0] =
      some [1, 0] ∧
    odMem ((odFind (registerDictAt (tokenInit
        (makeroot RegState.start [1, 0] true false) [1, 0]
        ⟨some "X", none, none, none, .noneV, none⟩ 0).2 [1, 0])
        [2, 1, 0]).getD []) "X" = false ∧
    findAttrOwner (strOwners (tokenInit
        (makeroot RegState.start [1, 0] true false) [1, 0]
        ⟨some "X", none, none, none, .noneV, none⟩ 0).2) [2, 1, 0] =
      some [1, 0] ∧
    odMem (strIndexAt (tokenInit
        (makeroot RegState.start [1, 0] true false) [1, 0]
        ⟨some "X", none, none, none, .noneV, none⟩ 0).2 [1, 0]) "X" = true ∧
    ((tokenInit (tokenInit (makeroot RegState.start [1, 0] true false) [1, 0]
          ⟨some "X", none, none, none, .noneV, none⟩ 0).2 [2, 1, 0]
        ⟨some "X", none, none, none, .noneV, none⟩ 1).1 =
      .error .duplicateGlobalStr ∧
    odFind (localRegisterAt (tokenInit (tokenInit
          (makeroot RegState.start [1, 0] true false) [1, 0]
          ⟨some "X", none, none, none, .noneV, none⟩ 0).2 [2, 1, 0]
        ⟨some "X", none, none, none, .noneV, none⟩ 1).2 [2, 1, 0]) "X" =
      some ⟨[2, 1, 0], resolveVal
        ⟨some "X", none, none, none, .noneV, none⟩ 1⟩) :=
  ⟨rfl, by decide, by decide, by decide, by decide,
    c4_global_duplicate_keeps_local_insert _ [2, 1, 0] _ 1 "X" [1, 0] [1, 0]
      rfl (by decide) (by decide) (by decide) (by decide)⟩

/-- C5 (counterexample): under a root with the global int index enabled,
constructing a token WITHOUT an int value does touch the global int index
(the index is changed by the construction, the absent value serving as key),
and a second token without an int value fails on that index with the
duplicate error.  This refutes the claim that constructions without an int
value never touch the global int index and never fail on it. -/
theorem c5_counterexample_absent_int_hits_numindex :
    (tokenInit (makeroot RegState.start [1, 0] true true) [1, 0]
        ⟨some "A", none, none, none, .noneV, none⟩ 0).2.numindexes ≠
      (makeroot RegState.start [1, 0] true true).numindexes ∧
    (tokenInit
        (tokenInit (makeroot RegState.start [1, 0] true true) [1, 0]
          ⟨some "A", none, none, none, .noneV, none⟩ 0).2 [1, 0]
        ⟨some "B", none, none, none, .noneV, none⟩ 1).1 =
      .error .duplicateGlobalInt :=
  ⟨by decide, rfl⟩

/-- C5 (amended): when the class resolves a global int index, the duplicate
check and insertion keyed by the int value happen for EVERY construction,
also when the int value is absent: a successful construction without an int
value appends the pair (absent key, token) to the index, and once the absent
key is present no construction without an int value can succeed any more. -/
theorem c5_numindex_check_unconditional (st : RegState) (c : Cls)
    (a : InitArgs) (fid : Nat) (o : Cls)
    (hiv : a.intval = none) (hval : a.val = none)
    (ho : findAttrOwner (numOwners st) c = some o) :
    (∀ tok stf, tokenInit st c a fid = (.ok tok, stf) →
        numIndexAt stf o = numIndexAt st o ++ [(none, tok)]) ∧
    (odMem (numIndexAt st o) none = true →
        ∀ tok stf, tokenInit st c a fid ≠ (.ok tok, stf)) := by
  have hivr : (resolveVal a fid).intval = none := by
    simp [resolveVal, hval, hiv]
  constructor
  · intro tok stf h
    have := tokenInit_ok_numindex st c a fid o tok stf ho h
    rwa [hivr] at this
  · intro hd
    exact tokenInit_numindex_dup_blocks st c a fid o ho (by rw [hivr]; exact hd)

/-- C5 (amended) witness: under the root `[1, 0]` with both global indexes,
after token `A` (no int value) is registered the absent key sits in the int
index, and the construction of `B` (again no int value) cannot succeed. -/
theorem c5_numindex_check_unconditional_witness :
    (⟨some "B", none, none, none, .noneV, none⟩ : InitArgs).intval = none ∧
    (⟨some "B", none, none, none, .noneV, none⟩ : InitArgs).val = none ∧
    findAttrOwner (numOwners (tokenInit
        (makeroot RegState.start [1, 0] true true) [1, 0]
        ⟨some "A", none, none, none, .noneV, none⟩ 0).2) [1, 0] =
      some [1, 0] ∧
    odMem (numIndexAt (tokenInit
        (makeroot RegState.start [1, 0] true true) [1, 0]
        ⟨some "A", none, none, none, .noneV, none⟩ 0).2 [1, 0]) none = true ∧
    tokenInit (tokenInit (makeroot RegState.start [1, 0] true true) [1, 0]
        ⟨some "A", none, none, none, .noneV, none⟩ 0).2 [1, 0]
        ⟨some "B", none, none, none, .noneV, none⟩ 1 ≠
      (.ok ⟨[1, 0], resolveVal ⟨some "B", none, none, none, .noneV, none⟩ 1⟩,
        makeroot RegState.start [1, 0] true true) :=
  ⟨rfl, rfl, by decide, by decide,
    (c5_numindex_check_unconditional _ [1, 0] _ 1 [1, 0] rfl rfl
        (by decide)).2 (by decide)
      ⟨[1, 0], resolveVal ⟨some "B", none, none, none, .noneV, none⟩ 1⟩
      (makeroot RegState.start [1, 0] true true)⟩

/-- C8: running any sequence of constructions that all register under the
same (initially empty) root and all succeed, the `tokens` enumeration of any
class resolving that root returns exactly the spec-side order: the tokens of
the class and its registered descendants grouped by class, classes in the
order each first received a token, tokens within a class in construction
(insertion) order. -/
theorem c8_tokens_construction_order (st0 : RegState) (o c : Cls)
    (evs : List Ev)
    (hreg : registerDictAt st0 o = [])
    (hres : ∀ e ∈ evs, findAttrOwner (regOwners st0) e.cls = some o)
    (hc : findAttrOwner (regOwners st0) c = some o)
    (hall : (runEvents st0 evs 0).1.length = evs.length) :
    tokensOf (runEvents st0 evs 0).2 c =
      .ok (specTokensOrder (runEvents st0 evs 0).1 c) := by
  obtain ⟨h1, h2⟩ := runEvents_register evs st0 0 o [] hreg hres hall
  have hc2 : findAttrOwner (regOwners (runEvents st0 evs 0).2) c = some o := by
    rw [h2]
    exact hc
  simp only [tokensOf, hc2]
  rw [h1, tokensOfDict_groupReg]

/-- C8 witness: the spec's end-to-end scenario — root `Comparison = [1, 0]`
with tokens `EQ`, `LT`, then subclass `Existence = [2, 1, 0]` with `EX`,
`NX`.  All four constructions succeed, the enumeration equals the spec-side
order, and the names come out in construction order `EQ, LT, EX, NX`. -/
theorem c8_tokens_construction_order_witness :
    registerDictAt (makeroot RegState.start [1, 0] true false) [1, 0] = [] ∧
    (∀ e ∈ ([⟨[1, 0], "EQ", none⟩, ⟨[1, 0], "LT", none⟩,
        ⟨[2, 1, 0], "EX", none⟩, ⟨[2, 1, 0], "NX", none⟩] : List Ev),
      findAttrOwner (regOwners (makeroot RegState.start [1, 0] true false))
        e.cls = some [1, 0]) ∧
    findAttrOwner (regOwners (makeroot RegState.start [1, 0] true false))
      [1, 0] = some [1, 0] ∧
    (runEvents (makeroot RegState.start [1, 0] true false)
      [⟨[1, 0], "EQ", none⟩, ⟨[1, 0], "LT", none⟩, ⟨[2, 1, 0], "EX", none⟩,
        ⟨[2, 1, 0], "NX", none⟩] 0).1.length = 4 ∧
    (runEvents (makeroot RegState.start [1, 0] true false)
      [⟨[1, 0], "EQ", none⟩, ⟨[1, 0], "LT", none⟩, ⟨[2, 1, 0], "EX", none⟩,
        ⟨[2, 1, 0], "NX", none⟩] 0).1.map tokName = ["EQ", "LT", "EX", "NX"] ∧
    tokensOf (runEvents (makeroot RegState.start [1, 0] true false)
      [⟨[1, 0], "EQ", none⟩, ⟨[1, 0], "LT", none⟩, ⟨[2, 1, 0], "EX", none⟩,
        ⟨[2, 1, 0], "NX", none⟩] 0).2 [1, 0] =
      .ok (specTokensOrder (runEvents
        (makeroot RegState.start [1, 0] true false)
        [⟨[1, 0], "EQ", none⟩, ⟨[1, 0], "LT", none⟩, ⟨[2, 1, 0], "EX", none⟩,
          ⟨[2, 1, 0], "NX", none⟩] 0).1 [1, 0]) :=
  ⟨by decide, by decide, by decide, by decide, by decide,
    c8_tokens_construction_order (makeroot RegState.start [1, 0] true false)
      [1, 0] [1, 0]
      [⟨[1, 0], "EQ", none⟩, ⟨[1, 0], "LT", none⟩, ⟨[2, 1, 0], "EX", none⟩,
        ⟨[2, 1, 0], "NX", none⟩]
      (by decide) (by decide) (by decide) (by decide)⟩

/-- C9: calling `makeroot` with the int index flag disabled (its default)
leaves the `_numindex` ownership map untouched, so attribute lookup for
every class still resolves the enclosing root's int index, and constructions
below the new root keep inserting into — and failing against — that
enclosing index: namespace isolation only covers the index kinds explicitly
enabled on the new root. -/
theorem c9_numindex_not_isolated_when_disabled (st : RegState) (c : Cls)
    (gi : Bool) :
    (makeroot st c gi false).numindexes = st.numindexes ∧
    (∀ d, findAttrOwner (numOwners (makeroot st c gi false)) d =
        findAttrOwner (numOwners st) d) ∧
    (∀ d a fid o tok stf, findAttrOwner (numOwners st) d = some o →
        tokenInit (makeroot st c gi false) d a fid = (.ok tok, stf) →
        numIndexAt stf o =
          numIndexAt st o ++ [((resolveVal a fid).intval, tok)]) ∧
    (∀ d a fid o, findAttrOwner (numOwners st) d = some o →
        odMem (numIndexAt st o) ((resolveVal a fid).intval) = true →
        ∀ tok stf, tokenInit (makeroot st c gi false) d a fid ≠
          (.ok tok, stf)) := by
  have hnum : (makeroot st c gi false).numindexes = st.numindexes := by
    simp [makeroot]
  have hown : ∀ d, findAttrOwner (numOwners (makeroot st c gi false)) d =
      findAttrOwner (numOwners st) d := by
    intro d
    unfold numOwners
    rw [hnum]
  have hat : ∀ o, numIndexAt (makeroot st c gi false) o = numIndexAt st o := by
    intro o
    unfold numIndexAt
    rw [hnum]
  refine ⟨hnum, hown, ?_, ?_⟩
  · intro d a fid o tok stf ho hok
    have := tokenInit_ok_numindex (makeroot st c gi false) d a fid o tok stf
      (by rw [hown d]; exact ho) hok
    rwa [hat o] at this
  · intro d a fid o ho hd
    exact tokenInit_numindex_dup_blocks (makeroot st c gi false) d a fid o
      (by rw [hown d]; exact ho) (by rw [hat o]; exact hd)

/-- C9 witness: with an enclosing root `[1, 0]` holding int key 7 in its int
index, making the nested root `[2, 1, 0]` with the int index flag disabled
leaves the int-index ownership untouched, and constructing a token with int
value 7 under the nested root cannot succeed — the enclosing index still
vetoes it. -/
theorem c9_numindex_not_isolated_when_disabled_witness :
    (makeroot (tokenInit (makeroot RegState.start [1, 0] true true) [1, 0]
        ⟨some "A", some 7, none, none, .noneV, none⟩ 0).2 [2, 1, 0] true
      false).numindexes =
      (tokenInit (makeroot RegState.start [1, 0] true true) [1, 0]
        ⟨some "A", some 7, none, none, .noneV, none⟩ 0).2.numindexes ∧
    findAttrOwner (numOwners (tokenInit
        (makeroot RegState.start [1, 0] true true) [1, 0]
        ⟨some "A", some 7, none, none, .noneV, none⟩ 0).2) [2, 1, 0] =
      some [1, 0] ∧
    odMem (numIndexAt (tokenInit
        (makeroot RegState.start [1, 0] true true) [1, 0]
        ⟨some "A", some 7, none, none, .noneV, none⟩ 0).2 [1, 0])
      ((resolveVal ⟨some "B", some 7, none, none, .noneV, none⟩ 1).intval) =
      true ∧
    tokenInit (makeroot (tokenInit
        (makeroot RegState.start [1, 0] true true) [1, 0]
        ⟨some "A", some 7, none, none, .noneV, none⟩ 0).2 [2, 1, 0] true false)
      [2, 1, 0] ⟨some "B", some 7, none, none, .noneV, none⟩ 1 ≠
      (.ok ⟨[2, 1, 0],
          resolveVal ⟨some "B", some 7, none, none, .noneV, none⟩ 1⟩,
        RegState.start) :=
  ⟨(c9_numindex_not_isolated_when_disabled _ [2, 1, 0] true).1, by decide,
    by decide,
    (c9_numindex_not_isolated_when_disabled _ [2, 1, 0] true).2.2.2 [2, 1, 0]
      ⟨some "B", some 7, none, none, .noneV, none⟩ 1 [1, 0] (by decide)
      (by decide)
      ⟨[2, 1, 0], resolveVal ⟨some "B", some 7, none, none, .noneV, none⟩ 1⟩
      RegState.start⟩

/-- C6: looking a key up by string against a root whose string index is
resolved behaves as specified: a present key returns the registered token
(with either flag value), a missing key raises `KeyError` when
`noneIfMissing` is false and returns the absent marker `None` (no exception)
when it is true. -/
theorem c6_byval_missing_key_behaviour (st : RegState) (c : Cls) (key : String)
    (o : Cls) (ho : findAttrOwner (strOwners st) c = some o) :
    (∀ t, odFind (strIndexAt st o) key = some t →
        byval st c key false = .ok (some t) ∧ byval st c key true = .ok (some t)) ∧
    (odFind (strIndexAt st o) key = none →
        byval st c key false = .error .keyNotFound ∧
          byval st c key true = .ok none) := by
  constructor
  · intro t ht
    constructor
    · simp [byval, ho, ht]
    · simp [byval, ho, ht]
  · intro hn
    constructor
    · simp [byval, ho, hn]
    · simp [byval, ho, hn]

/-- C6 witness: in the spec's end-to-end scenario (`Comparison` root with a
string index, token `EQ`), looking up the missing key `NOPE` raises the
key-not-found error without the flag and returns the absent marker with it,
while the present key `EQ` returns the registered token. -/
theorem c6_byval_missing_key_behaviour_witness :
    findAttrOwner
        (strOwners (tokenInit (makeroot RegState.start [1, 0] true false) [1, 0]
          ⟨some "EQ", none, none, none, .noneV, none⟩ 0).2) [1, 0] = some [1, 0] ∧
    byval (tokenInit (makeroot RegState.start [1, 0] true false) [1, 0]
        ⟨some "EQ", none, none, none, .noneV, none⟩ 0).2 [1, 0] "NOPE" false =
      .error .keyNotFound ∧
    byval (tokenInit (makeroot RegState.start [1, 0] true false) [1, 0]
        ⟨some "EQ", none, none, none, .noneV, none⟩ 0).2 [1, 0] "NOPE" true =
      .ok none ∧
    byval (tokenInit (makeroot RegState.start [1, 0] true false) [1, 0]
        ⟨some "EQ", none, none, none, .noneV, none⟩ 0).2 [1, 0] "EQ" false =
      .ok (some ⟨[1, 0], ⟨some "EQ", none, none, none, .noneV, 0⟩⟩) := by
  refine ⟨by decide, ?_, ?_, ?_⟩
  · exact ((c6_byval_missing_key_behaviour _ [1, 0] "NOPE" [1, 0] (by decide)).2
      (by decide)).1
  · exact ((c6_byval_missing_key_behaviour _ [1, 0] "NOPE" [1, 0] (by decide)).2
      (by decide)).2
  · exact ((c6_byval_missing_key_behaviour _ [1, 0] "EQ" [1, 0] (by decide)).1
      ⟨[1, 0], ⟨some "EQ", none, none, none, .noneV, 0⟩⟩ (by decide)).1

/-- C7: when no class on the MRO chain owns a string index (`makeroot` never
called with the string index enabled, no indexed ancestor), `byval` fails
with the `AttributeError`-backed configuration error, which is a different
error from the `KeyError` raised for a missing key; symmetrically `bynum`
against an absent int index. -/
theorem c7_missing_index_configuration_error (st : RegState) (c : Cls)
    (key : String) (ikey : Option Int) (b1 b2 : Bool)
    (h1 : findAttrOwner (strOwners st) c = none)
    (h2 : findAttrOwner (numOwners st) c = none) :
    byval st c key b1 = .error .configurationError ∧
    bynum st c ikey b2 = .error .configurationError ∧
    PyErr.configurationError ≠ PyErr.keyNotFound := by
  refine ⟨?_, ?_, by decide⟩
  · unfold byval
    rw [h1]
  · unfold bynum
    rw [h2]

/-- C7 witness: against the initial state, where no root with any index
exists, both lookups fail with the configuration error. -/
theorem c7_missing_index_configuration_error_witness :
    findAttrOwner (strOwners RegState.start) [1, 0] = none ∧
    findAttrOwner (numOwners RegState.start) [1, 0] = none ∧
    byval RegState.start [1, 0] "EQ" false = .error .configurationError ∧
    bynum RegState.start [1, 0] (some 3) false = .error .configurationError ∧
    PyErr.configurationError ≠ PyErr.keyNotFound := by
  refine ⟨by decide, by decide, ?_, ?_, by decide⟩
  · exact (c7_missing_index_configuration_error RegState.start [1, 0] "EQ"
      (some 3) false false (by decide) (by decide)).1
  · exact (c7_missing_index_configuration_error RegState.start [1, 0] "EQ"
      (some 3) false false (by decide) (by decide)).2.1

/-- C10: for every token whose list value is not a callable — including the
absent value and an actual tuple payload, the documented payload type — the
`tuple` accessor raises a `TypeError` (it calls the value returned by the
`list` property), so it never returns what the `list` accessor returns. -/
theorem c10_tuple_accessor_raises (t : Token)
    (h : isCallable (Token.list t) = false) :
    Token.tuple t = .error .typeErr ∧
      ∀ v : ListVal, Token.tuple t ≠ .ok v := by
  have he : Token.tuple t = .error .typeErr := by
    unfold Token.tuple callAsFunction
    cases hl : Token.list t with
    | noneV => rfl
    | tupleV xs => rfl
    | callableV r => rw [hl] at h; simp [isCallable] at h
  exact ⟨he, fun v hv => by rw [he] at hv; exact Except.noConfusion hv⟩

/-- C10 witness: a token carrying an actual tuple payload (the documented
use, e.g. `listval=(1,)`) has a non-callable list value; its `tuple` accessor
raises the `TypeError` and in particular does not return the payload. -/
theorem c10_tuple_accessor_raises_witness :
    isCallable (Token.list ⟨[1, 0], ⟨some "EQ", none, none, none,
        .tupleV [1], 0⟩⟩) = false ∧
    Token.tuple ⟨[1, 0], ⟨some "EQ", none, none, none, .tupleV [1], 0⟩⟩ =
      .error .typeErr ∧
    Token.tuple ⟨[1, 0], ⟨some "EQ", none, none, none, .tupleV [1], 0⟩⟩ ≠
      .ok (Token.list ⟨[1, 0], ⟨some "EQ", none, none, none, .tupleV [1], 0⟩⟩) := by
  refine ⟨by decide, ?_, ?_⟩
  · exact (c10_tuple_accessor_raises _ (by decide)).1
  · exact (c10_tuple_accessor_raises
      ⟨[1, 0], ⟨some "EQ", none, none, none, .tupleV [1], 0⟩⟩ (by decide)).2
      (Token.list ⟨[1, 0], ⟨some "EQ", none, none, none, .tupleV [1], 0⟩⟩)

end Tokens
